import Mathlib

/-!
Verification of the account-failover and stream-translation core of the
Retool OpenAI API adapter (`retool.ts`, with helpers from `config.ts`).

The TypeScript source is shallowly embedded: pure helpers become Lean
functions, the mutable account registry becomes an explicitly threaded
`List RetoolAccount` (an account's position in the list plays the role of
its JS object identity), the wall clock becomes an explicit `times`
function from iteration number to milliseconds, and the network becomes
explicit oracle functions describing what the upstream returns at each
step.  JS numbers holding millisecond timestamps and counters are
modelled as `Nat`; note that for `now - last_used < 300000` the JS
computation on a negative difference and the truncated `Nat` subtraction
agree (both make the comparison true), so `Nat` subtraction is faithful.
-/

namespace Retool

/-- `ChatMessage` from `retool.ts`: the role is one of the runtime strings
"user", "assistant" or "system". -/
structure ChatMessage where
  role : String
  content : String
deriving DecidableEq, Repr

/-- The turn label computed inside the loop of `formatMessagesForRetool`
(`retool.ts` line 214): `"Human"` exactly for role `"user"`, otherwise
`"Assistant"`. -/
def roleLabel (m : ChatMessage) : String :=
  if m.role = "user" then "Human" else "Assistant"

/-- `formatMessagesForRetool` (`retool.ts` lines 211-221): fold the messages
into a string, appending `"\n\n" ++ label ++ ": " ++ content` per message,
then append a trailing `"\n\nHuman: "` marker when the list is non-empty and
its final message has role `"assistant"`. -/
def formatMessagesForRetool (messages : List ChatMessage) : String :=
  let out := messages.foldl
    (fun out m => out ++ "\n\n" ++ roleLabel m ++ ": " ++ m.content) ""
  match messages.getLast? with
  | some m => if m.role = "assistant" then out ++ "\n\nHuman: " else out
  | none => out

/-- The text of one formatted turn, as produced by one loop iteration of
`formatMessagesForRetool`. -/
def turnText (m : ChatMessage) : String :=
  "\n\n" ++ roleLabel m ++ ": " ++ m.content

/-- The condition of `retool.ts` line 217: the message list is non-empty and
its final message has role `"assistant"`. -/
def endsWithAssistant (messages : List ChatMessage) : Bool :=
  (messages.getLast?).any fun m => m.role == "assistant"

/-- An upstream agent descriptor, with the fields of the agent objects that
`retool.ts` reads: `ag.id`, `ag.name` and `ag.data?.model` (the optional
chain is modelled by `Option`; `none` stands for a missing field). -/
structure AgentInfo where
  id : String
  name : String
  model : Option String
deriving DecidableEq, Repr

/-- `RetoolAccount` from `config.ts`, restricted to the fields the failover
core reads or writes.  The two credential tokens and the domain are opaque
identity data; the health fields are mutable state. -/
structure RetoolAccount where
  domain_name : String
  is_valid : Bool
  last_used : Nat
  error_count : Nat
  agents : List AgentInfo
  selected_agent_id : Option String
deriving DecidableEq, Repr

/-- `ModelRecord` from `retool.ts`. -/
structure ModelRecord where
  id : String
  name : String
  model_name : String
  owned_by : String
  agents : List String
deriving DecidableEq, Repr

/-- The `acc.agents.find(a => allowed.includes(a.id))` step of
`getBestRetoolAccount` (`retool.ts` line 235). -/
def findMatchingAgent (allowed : List String) (acc : RetoolAccount) : Option AgentInfo :=
  acc.agents.find? fun a => allowed.contains a.id

/-- The predicate of the candidate filter in `getBestRetoolAccount`
(`retool.ts` lines 230-239): the account is valid, is not quarantined
(`error_count >= 3` and `now - last_used < 300000` ms), and has an agent
whose id is in the model's allowed set. -/
def passesFilter (now : Nat) (allowed : List String) (acc : RetoolAccount) : Bool :=
  acc.is_valid
    && !(decide (3 ≤ acc.error_count) && decide (now - acc.last_used < 300000))
    && (findMatchingAgent allowed acc).isSome

/-- The sort comparator of `retool.ts` lines 241-243,
`(a.last_used - b.last_used) || (a.error_count - b.error_count)`, read as a
non-strict relation: ascending lexicographic order on
`(last_used, error_count)`. -/
def accLe (a b : RetoolAccount) : Prop :=
  a.last_used < b.last_used
    ∨ (a.last_used = b.last_used ∧ a.error_count ≤ b.error_count)

instance : DecidableRel accLe := fun a b => by
  unfold accLe; exact inferInstance

/-- The comparator lifted to index-account pairs (the index models the JS
object identity of an account inside the global array). -/
def pairLe (p q : Nat × RetoolAccount) : Prop := accLe p.2 q.2

instance : DecidableRel pairLe := fun p q => by
  unfold pairLe; exact inferInstance

instance : IsTotal (Nat × RetoolAccount) pairLe :=
  ⟨fun p q => by unfold pairLe accLe; omega⟩

instance : IsTrans (Nat × RetoolAccount) pairLe :=
  ⟨fun p q r => by unfold pairLe accLe; omega⟩

/-- Replace the element at position `i`, leaving the rest of the list
unchanged (the in-place mutation of one JS array element). -/
def updateAt (i : Nat) (f : RetoolAccount → RetoolAccount) :
    List RetoolAccount → List RetoolAccount
  | [] => []
  | a :: rest =>
    match i with
    | 0 => f a :: rest
    | j + 1 => a :: updateAt j f rest

/-- The side effect of the candidate filter (`retool.ts` line 237): every
account that passes the filter gets `selected_agent_id` set to the id of its
first matching agent; non-candidates are untouched. -/
def markAgents (now : Nat) (allowed : List String) (accounts : List RetoolAccount) :
    List RetoolAccount :=
  accounts.map fun acc =>
    if passesFilter now allowed acc then
      { acc with selected_agent_id := (findMatchingAgent allowed acc).map AgentInfo.id }
    else acc

/-- The candidate list of `getBestRetoolAccount`, as index-account pairs
taken in array order. -/
def candidatePairs (now : Nat) (allowed : List String)
    (accounts : List RetoolAccount) : List (Nat × RetoolAccount) :=
  accounts.enum.filter fun p => passesFilter now allowed p.2

/-- `getBestRetoolAccount` (`retool.ts` lines 223-247): look up the model
record, filter the accounts to the candidate set (recording
`selected_agent_id` on each candidate as a side effect), sort the candidates
ascending by `(last_used, error_count)` with a stable sort (JS `Array.sort`
is stable; modelled by Mathlib's stable `insertionSort`), pick the first,
and set its `last_used` to `now`.  Returns the index of the chosen account
together with the updated account list, or `none` when the model is unknown
or no candidate exists. -/
def getBestRetoolAccount (modelId : String) (now : Nat)
    (models : List ModelRecord) (accounts : List RetoolAccount) :
    Option (Nat × List RetoolAccount) :=
  match models.find? (fun m => m.id == modelId) with
  | none => none
  | some record =>
    match (List.insertionSort pairLe (candidatePairs now record.agents accounts)).head? with
    | none => none
    | some chosen =>
      some (chosen.1,
        updateAt chosen.1 (fun a => { a with last_used := now })
          (markAgents now record.agents accounts))

/-- `RetoolError` from `config.ts` (`createRetoolError`): the failing
operation, the account domain, an optional upstream HTTP status and a human
message.  The wall-clock `timestamp` string of the source record is
metadata never read by any control flow and is omitted from the model. -/
structure RetoolError where
  operation : String
  account : String
  statusCode : Option Nat
  message : String
deriving DecidableEq, Repr

/-- The exhaustion response body built by `createErrorResponse`
(`config.ts`): message, error type, attempt count and the ordered list of
per-attempt errors. -/
structure ErrorResponse where
  message : String
  type : String
  attempts : Nat
  details : List RetoolError
deriving DecidableEq, Repr

/-- `createErrorResponse` from `config.ts`. -/
def createErrorResponse (attempts : Nat) (errors : List RetoolError) : ErrorResponse :=
  { message := "All Retool accounts failed"
    type := "upstream_error"
    attempts := attempts
    details := errors }

/-- Outcome of one session-driver attempt (thread-create, message-send,
poll), as observed by the orchestrator's try/catch: either the completion
text, or the structured error carried by the thrown exception. -/
inductive AttemptOutcome where
  | ok (text : String)
  | fail (err : RetoolError)
deriving DecidableEq, Repr

/-- Result of one orchestrated chat-completion request, together with the
final account registry state and the trace of account indices attempted (in
order, with multiplicity). -/
inductive CompletionResult where
  | success (text : String) (accounts : List RetoolAccount) (tried : List Nat)
  | exhausted (resp : ErrorResponse) (accounts : List RetoolAccount) (tried : List Nat)
deriving DecidableEq, Repr

/-- The accounts-state component of a `CompletionResult`. -/
def CompletionResult.finalAccounts : CompletionResult → List RetoolAccount
  | .success _ accounts _ => accounts
  | .exhausted _ accounts _ => accounts

/-- The attempted-indices trace of a `CompletionResult`. -/
def CompletionResult.tried : CompletionResult → List Nat
  | .success _ _ tried => tried
  | .exhausted _ _ tried => tried

/-- The `attempts` field of the exhaustion response, when the request was
exhausted. -/
def CompletionResult.attempts? : CompletionResult → Option Nat
  | .success _ _ _ => none
  | .exhausted resp _ _ => some resp.attempts

/-- The catch-block of `handleRequest` (`retool.ts` lines 497-517):
increment the failed account's `error_count`, and mark it permanently
invalid when the carried status is 401 or 403. -/
def penalize (err : RetoolError) (acc : RetoolAccount) : RetoolAccount :=
  let acc2 := { acc with error_count := acc.error_count + 1 }
  if err.statusCode = some 401 ∨ err.statusCode = some 403 then
    { acc2 with is_valid := false }
  else acc2

/-- The retry loop of `handleRequest` (`retool.ts` lines 468-519).  `fuel`
is the number of remaining iterations (`RETOOL_ACCOUNTS.length - attempt` in
the source, where the account list length never changes); `attempt` numbers
the current iteration so that the abstract clock `times` and the
session-outcome oracle `outcome` can depend on it.  Each iteration asks the
Selector for an account (breaking out when none is available), delegates the
attempt to the session driver (the oracle), and on failure records the
error, penalizes the account and continues. -/
def completionLoop (models : List ModelRecord) (modelId : String)
    (times : Nat → Nat) (outcome : Nat → AttemptOutcome) :
    Nat → Nat → List RetoolAccount → Nat → List RetoolError → List Nat →
      CompletionResult
  | 0, _, accounts, attemptCount, collected, tried =>
    .exhausted (createErrorResponse attemptCount collected) accounts tried
  | fuel + 1, attempt, accounts, attemptCount, collected, tried =>
    match getBestRetoolAccount modelId (times attempt) models accounts with
    | none => .exhausted (createErrorResponse attemptCount collected) accounts tried
    | some (i, accounts2) =>
      match outcome attempt with
      | .ok text => .success text accounts2 (tried ++ [i])
      | .fail err =>
        completionLoop models modelId times outcome fuel (attempt + 1)
          (updateAt i (penalize err) accounts2) (attemptCount + 1)
          (collected ++ [err]) (tried ++ [i])

/-- The orchestrated handling of one `/v1/chat/completions` request after
validation: run the retry loop with one iteration budget per configured
account. -/
def handleCompletion (models : List ModelRecord) (modelId : String)
    (times : Nat → Nat) (outcome : Nat → AttemptOutcome)
    (accounts : List RetoolAccount) : CompletionResult :=
  completionLoop models modelId times outcome accounts.length 0 accounts 0 [] []

/-- Fixture: an agent with id "ag1". -/
def agentOne : AgentInfo := ⟨"ag1", "aname", none⟩

/-- Fixture: the model record used by concrete selector runs. -/
def recordM : ModelRecord := ⟨"m", "n", "anthropic-claude-3-x", "anthropic", ["ag1"]⟩

/-- Fixture: a single-record catalog. -/
def modelsM : List ModelRecord := [recordM]

/-- Fixture: a valid account serving "ag1", last used at 50 ms. -/
def accountA : RetoolAccount := ⟨"a", true, 50, 0, [agentOne], none⟩

/-- Fixture: a valid account serving "ag1", last used at 10 ms. -/
def accountB : RetoolAccount := ⟨"b", true, 10, 0, [agentOne], none⟩

/-- Fixture: an invalid account. -/
def accountBad : RetoolAccount := ⟨"bad", false, 0, 0, [agentOne], none⟩

/-- Fixture: a session-driver oracle that always fails with a non-auth
`message_send` error (HTTP 500). -/
def alwaysFail500 : Nat → AttemptOutcome :=
  fun _ => .fail ⟨"message_send", "a", some 500, "Send message failed"⟩

/-- JS `haystack.includes(needle)` over character lists: some suffix of the
haystack starts with the needle. -/
def containsSub (needle : List Char) : List Char → Bool
  | [] => needle.isPrefixOf ([] : List Char)
  | c :: t => needle.isPrefixOf (c :: t) || containsSub needle t

/-- JS `String.prototype.toLowerCase`, character-wise (ASCII suffices for
the model names involved). -/
def lowerChars (s : List Char) : List Char := s.map Char.toLower

/-- JS `fullName.split("-")` over character lists: split at every hyphen,
keeping empty segments.  `cur` is the reversed current segment. -/
def splitDash : List Char → List Char → List (List Char)
  | [], cur => [cur.reverse]
  | c :: rest, cur =>
    if c = '-' then cur.reverse :: splitDash rest [] else splitDash rest (c :: cur)

/-- The model-family key of `initializeRetoolEnvironment` (`retool.ts` line
274): `fullName.split("-").slice(0, 3).join("-")`. -/
def seriesOf (fullName : String) : String :=
  ⟨List.intercalate ['-'] ((splitDash fullName.data []).take 3)⟩

/-- The ownership tag of `retool.ts` lines 281-283:
`fullName.toLowerCase().includes("claude") ? "anthropic" : "openai"`. -/
def ownedByOf (fullName : String) : String :=
  if containsSub "claude".data (lowerChars fullName.data) then "anthropic" else "openai"

/-- `ag.data?.model ?? "unknown"` (`retool.ts` line 273). -/
def fullNameOf (ag : AgentInfo) : String := ag.model.getD "unknown"

/-- The fresh `ModelRecord` created at `retool.ts` lines 277-286 when an
agent's family key is not yet in the map, together with the unconditional
`rec.agents.push(ag.id)` of line 288. -/
def newRecord (ag : AgentInfo) : ModelRecord :=
  { id := seriesOf (fullNameOf ag)
    name := ag.name
    model_name := fullNameOf ag
    owned_by := ownedByOf (fullNameOf ag)
    agents := [ag.id] }

/-- Processing one agent in the aggregation loop of
`initializeRetoolEnvironment` (`retool.ts` lines 272-289): if a record with
the agent's family key exists, push the agent id onto it; otherwise append a
fresh record (the JS `Map` preserves insertion order, so the record list is
kept in insertion order). -/
def insertAgent (ag : AgentInfo) : List ModelRecord → List ModelRecord
  | [] => [newRecord ag]
  | r :: rest =>
    if r.id = seriesOf (fullNameOf ag) then
      { r with agents := r.agents ++ [ag.id] } :: rest
    else r :: insertAgent ag rest

/-- The model-catalog aggregation of `initializeRetoolEnvironment`
(`retool.ts` lines 269-291), as a pure function of the per-account agent
lists discovered at startup. -/
def discoverModels (agentLists : List (List AgentInfo)) : List ModelRecord :=
  agentLists.foldl (fun recs ags => ags.foldl (fun rs ag => insertAgent ag rs) recs) []

/-- One server-sent frame of `retoolStreamGenerator` (`retool.ts` lines
346-382), keeping the fields that vary: the role-announcement chunk, a
content-delta chunk carrying one slice of the text, the stop chunk, and the
final `[DONE]` end-of-stream marker.  (`done` is yielded by the source in
the same write as the stop chunk; on the wire they are separate
`data:` frames.) -/
inductive StreamFrame where
  | role (id : String) (created : Nat) (model : String)
  | content (id : String) (created : Nat) (model : String) (part : List Char)
  | stop (id : String) (created : Nat) (model : String)
  | done
deriving DecidableEq, Repr

/-- The stream id carried by a frame (`none` for the `[DONE]` marker). -/
def StreamFrame.frameId : StreamFrame → Option String
  | .role id _ _ => some id
  | .content id _ _ _ => some id
  | .stop id _ _ => some id
  | .done => none

/-- The creation timestamp carried by a frame (`none` for `[DONE]`). -/
def StreamFrame.frameCreated : StreamFrame → Option Nat
  | .role _ created _ => some created
  | .content _ created _ _ => some created
  | .stop _ created _ => some created
  | .done => none

/-- The slicing loop of `retoolStreamGenerator` (`retool.ts` lines 361-373):
`for (let i = 0; i < fullMessage.length; i += 5) slice(i, i + 5)`, i.e. the
consecutive 5-character slices of the message. -/
def chunks5 : List Char → List (List Char)
  | [] => []
  | [a] => [[a]]
  | [a, b] => [[a, b]]
  | [a, b, c] => [[a, b, c]]
  | [a, b, c, d] => [[a, b, c, d]]
  | a :: b :: c :: d :: e :: rest => [a, b, c, d, e] :: chunks5 rest

/-- `retoolStreamGenerator` (`retool.ts` lines 346-382): one
role-announcement frame, one content-delta frame per 5-character slice of
the text in order, one stop frame, then the `[DONE]` marker; every frame
carries the single stream id and creation timestamp fixed at stream start.
The 10 ms inter-frame delay is timing-only and not modelled. -/
def retoolStreamGenerator (streamId : String) (created : Nat) (modelId : String)
    (fullMessage : List Char) : List StreamFrame :=
  .role streamId created modelId ::
    ((chunks5 fullMessage).map (.content streamId created modelId)
      ++ [.stop streamId created modelId, .done])

/-- One entry of the run log's `trace` array; `content` models the nested
`entry.data.data.content` text read at `retool.ts` line 195. -/
structure TraceEntry where
  content : String
deriving DecidableEq, Repr

/-- What one poll request observes: a non-success HTTP response carrying a
status, or a JSON body with an upstream run `status` string and the `trace`
array. -/
inductive PollResponse where
  | httpError (status : Nat)
  | body (status : String) (trace : List TraceEntry)
deriving DecidableEq, Repr

/-- Outcome of the polling step: the extracted completion text, a structured
`RetoolApiError`, or a JS runtime `TypeError` (reading `.data` of
`undefined` when `trace` is empty), which is not a structured error. -/
inductive PollResult where
  | completed (text : String)
  | apiError (e : RetoolError)
  | crash
deriving DecidableEq, Repr

/-- Default poll deadline of `retoolGetMessage` (`timeoutMs = 300_000`). -/
def DEFAULT_TIMEOUT_MS : Nat := 300000

/-- Sleep between polls (`setTimeout(r, 1_000)` at `retool.ts` line 197);
timing is otherwise abstracted into the `times` function. -/
def POLL_INTERVAL_MS : Nat := 1000

/-- The `message_get` error produced on a non-success poll response
(`retool.ts` lines 181-186). -/
def getLogErr (domain : String) (status : Nat) : RetoolError :=
  ⟨"message_get", domain, some status, "Get log failed"⟩

/-- The `message_get` timeout error produced after the deadline
(`retool.ts` lines 199-203). -/
def timeoutErr (domain : String) : RetoolError :=
  ⟨"message_get", domain, none, "Timeout waiting for completion"⟩

/-- The `return last.data.data.content` step on COMPLETED status
(`retool.ts` lines 192-195): the final trace entry's nested content, a
runtime crash when the trace is empty. -/
def extractContent (trace : List TraceEntry) : PollResult :=
  match trace.getLast? with
  | some e => .completed e.content
  | none => .crash

/-- The polling loop of `retoolGetMessage` (`retool.ts` lines 171-205):
while the clock is before the deadline, issue one poll; a non-success
response fails immediately with a `message_get` error carrying the status
(no retry of that poll); a COMPLETED body returns the extracted content;
otherwise sleep and poll again; once the clock reaches the deadline, fail
with the `message_get` timeout error.  `times i` is the wall clock at the
i-th iteration's deadline check; `fuel` bounds the iterations (the source
loop terminates because the clock advances past the deadline; a model run
that exhausts fuel is reported as the same timeout failure). -/
def pollLoop (domain : String) (deadline : Nat) (times : Nat → Nat)
    (responses : Nat → PollResponse) : Nat → Nat → PollResult
  | 0, _ => .apiError (timeoutErr domain)
  | fuel + 1, i =>
    if times i < deadline then
      match responses i with
      | .httpError s => .apiError (getLogErr domain s)
      | .body st trace =>
        if st = "COMPLETED" then extractContent trace
        else pollLoop domain deadline times responses fuel (i + 1)
    else .apiError (timeoutErr domain)

/-- `retoolGetMessage` (`retool.ts` lines 164-206): poll with deadline
`start + timeoutMs`, where `start` is the clock at entry. -/
def retoolGetMessage (domain : String) (start timeoutMs : Nat)
    (times : Nat → Nat) (responses : Nat → PollResponse) (fuel : Nat) :
    PollResult :=
  pollLoop domain (start + timeoutMs) times responses fuel 0

theorem foldl_str_append (l : List String) :
    ∀ a : String, l.foldl (fun r s => r ++ s) a = a ++ l.foldl (fun r s => r ++ s) "" := by
  induction l with
  | nil => intro a; simp
  | cons s t ih =>
    intro a
    simp only [List.foldl_cons]
    rw [ih (a ++ s), ih ("" ++ s), String.empty_append, String.append_assoc]

theorem string_join_cons (s : String) (l : List String) :
    String.join (s :: l) = s ++ String.join l := by
  simp only [String.join, List.foldl_cons, String.empty_append]
  exact foldl_str_append l s

theorem foldl_turnText (messages : List ChatMessage) :
    ∀ acc : String,
      messages.foldl (fun out m => out ++ "\n\n" ++ roleLabel m ++ ": " ++ m.content) acc
        = acc ++ String.join (messages.map turnText) := by
  induction messages with
  | nil => intro acc; simp [String.join]
  | cons m rest ih =>
    intro acc
    simp only [List.foldl_cons, List.map_cons, ih, string_join_cons]
    rw [turnText]
    simp only [String.append_assoc]

theorem formatMessages_eq (messages : List ChatMessage) :
    formatMessagesForRetool messages
      = String.join (messages.map turnText)
        ++ (if endsWithAssistant messages then "\n\nHuman: " else "") := by
  unfold formatMessagesForRetool endsWithAssistant
  rw [foldl_turnText]
  cases h : messages.getLast? with
  | none => simp
  | some m =>
    by_cases hm : m.role = "assistant" <;> simp [h, hm, Option.any]

theorem getLast?_some_ne_nil {messages : List ChatMessage} {m : ChatMessage}
    (h : messages.getLast? = some m) : messages ≠ [] := by
  intro he; subst he; simp at h

/-- Claim C8: for every message list, the formatted prompt is the
concatenation of the per-message turns (each `"\n\n" ++ label ++ ": " ++
content`, in message order), with a trailing `"\n\nHuman: "` marker appended
if and only if the list is non-empty and its final message has role
`"assistant"`. -/
theorem claim_C8 (messages : List ChatMessage) :
    formatMessagesForRetool messages
        = String.join (messages.map turnText)
          ++ (if endsWithAssistant messages then "\n\nHuman: " else "")
      ∧ (endsWithAssistant messages = true
          ↔ messages ≠ [] ∧ ∃ m, messages.getLast? = some m ∧ m.role = "assistant") := by
  refine ⟨formatMessages_eq messages, ?_⟩
  cases h : messages.getLast? with
  | none =>
    simp only [endsWithAssistant, h, Option.any]
    constructor
    · intro hfalse; cases hfalse
    · rintro ⟨-, m, hm, -⟩; cases hm
  | some m =>
    simp only [endsWithAssistant, h, Option.any, beq_iff_eq]
    constructor
    · intro hrole
      exact ⟨getLast?_some_ne_nil h, m, rfl, hrole⟩
    · rintro ⟨-, m', hm', hrole⟩
      cases hm'; exact hrole

/-- Claim C2 counterexample: for the list `[{user, Hi}, {assistant, Hello}]`
the formatter DOES append the trailing `"Human: "` marker (the formatted text
ends with `"\n\nHuman: "`), refuting the claim that no trailing marker is
appended for this input. -/
theorem claim_C2_counterexample :
    ("\n\nHuman: ".data).isSuffixOf
      (formatMessagesForRetool
        [⟨"user", "Hi"⟩, ⟨"assistant", "Hello"⟩]).data = true := by
  decide

/-- Claim C2 (amended): for `[{user, Hi}, {assistant, Hello}]` the formatted
text consists of the two turns followed by a trailing `"\n\nHuman: "` marker
(triggered by the assistant-final turn), while for the single-message list
`[{user, Hi}]` no trailing marker is appended. -/
theorem claim_C2_amended :
    formatMessagesForRetool [⟨"user", "Hi"⟩, ⟨"assistant", "Hello"⟩]
        = "\n\nHuman: Hi\n\nAssistant: Hello\n\nHuman: "
      ∧ formatMessagesForRetool [⟨"user", "Hi"⟩] = "\n\nHuman: Hi"
      ∧ ("\n\nHuman: ".data).isSuffixOf
          (formatMessagesForRetool [⟨"user", "Hi"⟩]).data = false := by
  refine ⟨by decide, by decide, by decide⟩

/-- Claim C10: the formatter labels a turn `"Human"` iff the message role is
exactly `"user"`; every other role (including `"system"`) is labelled
`"Assistant"`; yet a final message with role `"system"` does not trigger the
trailing `"Human: "` marker (the formatted text is just the joined turns). -/
theorem claim_C10 :
    (∀ m : ChatMessage, roleLabel m = "Human" ↔ m.role = "user")
      ∧ (∀ m : ChatMessage, m.role ≠ "user" → roleLabel m = "Assistant")
      ∧ (∀ (messages : List ChatMessage) (m : ChatMessage),
          messages.getLast? = some m → m.role = "system" →
            formatMessagesForRetool messages
              = String.join (messages.map turnText)) := by
  refine ⟨?_, ?_, ?_⟩
  · intro m
    unfold roleLabel
    by_cases h : m.role = "user" <;> simp [h]
  · intro m h
    unfold roleLabel
    simp [h]
  · intro messages m hlast hrole
    have hend : endsWithAssistant messages = false := by
      simp [endsWithAssistant, hlast, Option.any, hrole]
    rw [formatMessages_eq, hend]
    simp

/-- Claim C10 witness: concrete instantiation — role `"system"` is labelled
`"Assistant"`, and a conversation ending in a system message gets no trailing
marker. -/
theorem claim_C10_witness :
    roleLabel ⟨"system", "S"⟩ = "Assistant"
      ∧ formatMessagesForRetool [⟨"user", "Hi"⟩, ⟨"system", "S"⟩]
          = String.join ([⟨"user", "Hi"⟩, ⟨"system", "S"⟩].map turnText) :=
  ⟨claim_C10.2.1 ⟨"system", "S"⟩ (by decide),
   claim_C10.2.2 [⟨"user", "Hi"⟩, ⟨"system", "S"⟩] ⟨"system", "S"⟩ (by decide) rfl⟩

theorem pairLe_refl (p : Nat × RetoolAccount) : pairLe p p :=
  Or.inr ⟨rfl, Nat.le_refl _⟩

theorem head_sort_min (l : List (Nat × RetoolAccount)) (p : Nat × RetoolAccount)
    (h : (List.insertionSort pairLe l).head? = some p) :
    p ∈ l ∧ ∀ q ∈ l, pairLe p q := by
  have hs : List.Sorted pairLe (List.insertionSort pairLe l) :=
    List.sorted_insertionSort pairLe l
  cases hsort : List.insertionSort pairLe l with
  | nil => rw [hsort] at h; cases h
  | cons x t =>
    rw [hsort] at h hs
    simp only [List.head?_cons, Option.some.injEq] at h
    subst h
    refine ⟨?_, ?_⟩
    · have hx : x ∈ List.insertionSort pairLe l := by
        rw [hsort]; exact List.mem_cons_self _ _
      exact (List.mem_insertionSort pairLe).mp hx
    · intro q hq
      have hq2 : q ∈ List.insertionSort pairLe l := (List.mem_insertionSort pairLe).mpr hq
      rw [hsort] at hq2
      rcases List.mem_cons.mp hq2 with rfl | hmem2
      · exact pairLe_refl _
      · exact List.rel_of_sorted_cons hs q hmem2

theorem updateAt_getElem? (f : RetoolAccount → RetoolAccount)
    (l : List RetoolAccount) :
    ∀ i j, (updateAt i f l)[j]? = if j = i then (l[j]?).map f else l[j]? := by
  induction l with
  | nil => intro i j; simp [updateAt]
  | cons a rest ih =>
    intro i j
    cases i with
    | zero =>
      cases j with
      | zero => simp [updateAt]
      | succ j => simp [updateAt]
    | succ i =>
      cases j with
      | zero => simp [updateAt]
      | succ j => simpa [updateAt, Nat.succ_inj] using ih i j

/-- Claim C3: for a valid account with a matching agent for the requested
model, the candidate filter rejects it exactly while `error_count >= 3` and
`now - last_used < 300000` ms, and accepts it again as soon as
`now - last_used >= 300000` ms, regardless of `error_count`; membership in
the Selector's candidate set is governed by this filter. -/
theorem claim_C3 (now : Nat) (allowed : List String) (acc : RetoolAccount)
    (hvalid : acc.is_valid = true)
    (hagent : (findMatchingAgent allowed acc).isSome = true) :
    (3 ≤ acc.error_count ∧ now - acc.last_used < 300000 →
        passesFilter now allowed acc = false)
      ∧ (300000 ≤ now - acc.last_used → passesFilter now allowed acc = true)
      ∧ (∀ (accounts : List RetoolAccount) (i : Nat), (i, acc) ∈ accounts.enum →
          ((i, acc) ∈ candidatePairs now allowed accounts
            ↔ passesFilter now allowed acc = true)) := by
  refine ⟨?_, ?_, ?_⟩
  · rintro ⟨h1, h2⟩
    simp [passesFilter, hvalid, hagent, h1, h2]
  · intro h
    have h2 : ¬ (now - acc.last_used < 300000) := by omega
    simp [passesFilter, hvalid, hagent, h2]
  · intro accounts i hmem
    simp [candidatePairs, List.mem_filter, hmem]

/-- Claim C3 witness: a valid, matching account with `error_count = 5` is
rejected at `now - last_used = 299999` and accepted at
`now - last_used = 300000`. -/
theorem claim_C3_witness :
    passesFilter 299999 ["ag1"] ⟨"d", true, 0, 5, [⟨"ag1", "n", none⟩], none⟩ = false
      ∧ passesFilter 300000 ["ag1"] ⟨"d", true, 0, 5, [⟨"ag1", "n", none⟩], none⟩ = true :=
  ⟨(claim_C3 299999 ["ag1"] ⟨"d", true, 0, 5, [⟨"ag1", "n", none⟩], none⟩
      (by decide) (by decide)).1 (by decide),
   (claim_C3 300000 ["ag1"] ⟨"d", true, 0, 5, [⟨"ag1", "n", none⟩], none⟩
      (by decide) (by decide)).2.1 (by decide)⟩

/-- Claim C4: whenever the model is known and the candidate set is
non-empty, the Selector returns a candidate whose `(last_used, error_count)`
key is minimal over the whole candidate set, and the returned account state
has that account's `last_used` set to `now` (and its `selected_agent_id` set
to its first matching agent). -/
theorem claim_C4 (modelId : String) (now : Nat) (models : List ModelRecord)
    (accounts : List RetoolAccount) (record : ModelRecord)
    (hrec : models.find? (fun m => m.id == modelId) = some record)
    (hne : candidatePairs now record.agents accounts ≠ []) :
    ∃ i chosen accounts2,
      getBestRetoolAccount modelId now models accounts = some (i, accounts2)
        ∧ (i, chosen) ∈ candidatePairs now record.agents accounts
        ∧ (∀ q ∈ candidatePairs now record.agents accounts, accLe chosen q.2)
        ∧ accounts2[i]? = some { chosen with
            selected_agent_id := (findMatchingAgent record.agents chosen).map AgentInfo.id,
            last_used := now } := by
  cases hhead : (List.insertionSort pairLe (candidatePairs now record.agents accounts)).head? with
  | none =>
    exfalso
    apply hne
    have hlen : (List.insertionSort pairLe (candidatePairs now record.agents accounts)).length
        = (candidatePairs now record.agents accounts).length :=
      (List.perm_insertionSort pairLe _).length_eq
    rw [List.head?_eq_none_iff] at hhead
    rw [hhead] at hlen
    exact List.length_eq_zero.mp hlen.symm
  | some chosenPair =>
    obtain ⟨hmem, hmin⟩ := head_sort_min _ _ hhead
    obtain ⟨i, chosen⟩ := chosenPair
    have hacc : accounts[i]? = some chosen := by
      have henum : (i, chosen) ∈ accounts.enum := (List.mem_filter.mp hmem).1
      exact List.mk_mem_enum_iff_getElem?.mp henum
    have hpass : passesFilter now record.agents chosen = true :=
      (List.mem_filter.mp hmem).2
    refine ⟨i, chosen,
      updateAt i (fun a => { a with last_used := now })
        (markAgents now record.agents accounts),
      ?_, hmem, fun q hq => hmin q hq, ?_⟩
    · simp only [getBestRetoolAccount, hrec, hhead]
    · rw [updateAt_getElem?]
      simp [markAgents, hacc, hpass]

/-- Claim C4 witness: with two fresh candidates, the Selector picks the
least-recently-used one and stamps its `last_used`. -/
theorem claim_C4_witness :
    ∃ i chosen accounts2,
      getBestRetoolAccount "m" 1000 modelsM [accountA, accountB] = some (i, accounts2)
        ∧ (i, chosen) ∈ candidatePairs 1000 recordM.agents [accountA, accountB]
        ∧ (∀ q ∈ candidatePairs 1000 recordM.agents [accountA, accountB], accLe chosen q.2)
        ∧ accounts2[i]? = some { chosen with
            selected_agent_id := (findMatchingAgent recordM.agents chosen).map AgentInfo.id,
            last_used := 1000 } :=
  claim_C4 "m" 1000 modelsM [accountA, accountB] recordM (by decide) (by decide)

/-- Claim C1 counterexample: with two configured accounts of which only one
is eligible, and every attempt failing with a non-auth 500, the orchestrator
attempts the single eligible account (index 0) TWICE in one request — the
trace of attempted indices is `[0, 0]`, which is not duplicate-free — and the
exhaustion response reports `attempts = 2` although only one distinct
account was tried. -/
theorem claim_C1_counterexample :
    (handleCompletion modelsM "m" (fun i => 1000 * (i + 1)) alwaysFail500
          [accountA, accountBad]).tried = [0, 0]
      ∧ ¬ (handleCompletion modelsM "m" (fun i => 1000 * (i + 1)) alwaysFail500
          [accountA, accountBad]).tried.Nodup
      ∧ (handleCompletion modelsM "m" (fun i => 1000 * (i + 1)) alwaysFail500
          [accountA, accountBad]).attempts? = some 2 :=
  ⟨by decide, by decide, by decide⟩

theorem completionLoop_exhausted_inv (models : List ModelRecord) (modelId : String)
    (times : Nat → Nat) (outcome : Nat → AttemptOutcome) :
    ∀ (fuel attempt : Nat) (accounts : List RetoolAccount) (ac : Nat)
      (col : List RetoolError) (tr : List Nat) (resp : ErrorResponse)
      (accounts2 : List RetoolAccount) (tried : List Nat),
      ac = tr.length →
      completionLoop models modelId times outcome fuel attempt accounts ac col tr
          = .exhausted resp accounts2 tried →
      resp.attempts = tried.length ∧ tried.length ≤ tr.length + fuel := by
  intro fuel
  induction fuel with
  | zero =>
    intro attempt accounts ac col tr resp accounts2 tried hac heq
    simp only [completionLoop] at heq
    cases heq
    simp [createErrorResponse, hac]
  | succ fuel ih =>
    intro attempt accounts ac col tr resp accounts2 tried hac heq
    cases hbest : getBestRetoolAccount modelId (times attempt) models accounts with
    | none =>
      simp only [completionLoop, hbest] at heq
      cases heq
      simp [createErrorResponse, hac]
    | some pair =>
      obtain ⟨i, accs2⟩ := pair
      cases houtcome : outcome attempt with
      | ok text =>
        simp only [completionLoop, hbest, houtcome] at heq
        cases heq
      | fail err =>
        simp only [completionLoop, hbest, houtcome] at heq
        have hih := ih (attempt + 1) (updateAt i (penalize err) accs2) (ac + 1)
          (col ++ [err]) (tr ++ [i]) resp accounts2 tried (by simp [hac]) heq
        obtain ⟨h1, h2⟩ := hih
        refine ⟨h1, ?_⟩
        simp only [List.length_append, List.length_cons, List.length_nil] at h2
        omega

/-- Claim C1 (amended): for every request in which all attempts fail, the
outer retry loop runs at most `accounts.length` iterations, and the
exhaustion response's `attempts` field equals the number of attempts made —
the length of the trace of selected accounts, counted with multiplicity; the
same account may be attempted more than once when other configured accounts
are ineligible. -/
theorem claim_C1_amended (models : List ModelRecord) (modelId : String)
    (times : Nat → Nat) (outcome : Nat → AttemptOutcome)
    (accounts : List RetoolAccount) (resp : ErrorResponse)
    (accounts2 : List RetoolAccount) (tried : List Nat)
    (h : handleCompletion models modelId times outcome accounts
        = .exhausted resp accounts2 tried) :
    resp.attempts = tried.length ∧ tried.length ≤ accounts.length := by
  have hmain := completionLoop_exhausted_inv models modelId times outcome
    accounts.length 0 accounts 0 [] [] resp accounts2 tried rfl h
  simpa using hmain

/-- Claim C1 (amended) witness: the two-account always-failing run reaches
exhaustion with `attempts = 2 = |tried|` and `2 <= 2` accounts. -/
theorem claim_C1_amended_witness :
    (createErrorResponse 2
        [⟨"message_send", "a", some 500, "Send message failed"⟩,
         ⟨"message_send", "a", some 500, "Send message failed"⟩]).attempts
        = ([0, 0] : List Nat).length
      ∧ ([0, 0] : List Nat).length
          ≤ ([accountA, accountBad] : List RetoolAccount).length :=
  claim_C1_amended modelsM "m" (fun i => 1000 * (i + 1)) alwaysFail500
    [accountA, accountBad]
    (createErrorResponse 2
      [⟨"message_send", "a", some 500, "Send message failed"⟩,
       ⟨"message_send", "a", some 500, "Send message failed"⟩])
    [⟨"a", true, 2000, 2, [agentOne], some "ag1"⟩, accountBad]
    [0, 0] (by decide)

theorem passesFilter_invalid (now : Nat) (allowed : List String)
    (acc : RetoolAccount) (h : acc.is_valid = false) :
    passesFilter now allowed acc = false := by
  simp [passesFilter, h]

theorem getBest_preserves_invalid (modelId : String) (now : Nat)
    (models : List ModelRecord) (accounts : List RetoolAccount)
    (i : Nat) (accs2 : List RetoolAccount) (j : Nat) (a : RetoolAccount)
    (h : getBestRetoolAccount modelId now models accounts = some (i, accs2))
    (hj : accounts[j]? = some a) (hinv : a.is_valid = false) :
    i ≠ j ∧ accs2[j]? = some a := by
  cases hrec : models.find? (fun m => m.id == modelId) with
  | none =>
    simp only [getBestRetoolAccount, hrec] at h
    cases h
  | some record =>
    cases hhead : (List.insertionSort pairLe (candidatePairs now record.agents accounts)).head? with
    | none =>
      simp only [getBestRetoolAccount, hrec, hhead] at h
      cases h
    | some chosen =>
      simp only [getBestRetoolAccount, hrec, hhead, Option.some.injEq,
        Prod.mk.injEq] at h
      obtain ⟨hmem, -⟩ := head_sort_min _ _ hhead
      have hchosenacc : accounts[chosen.1]? = some chosen.2 :=
        List.mk_mem_enum_iff_getElem?.mp (List.mem_filter.mp hmem).1
      have hpass : passesFilter now record.agents chosen.2 = true :=
        (List.mem_filter.mp hmem).2
      obtain ⟨hi, haccs⟩ := h
      subst hi
      subst haccs
      have hne : chosen.1 ≠ j := by
        intro hij
        rw [hij, hj] at hchosenacc
        have hca : chosen.2 = a := by
          injection hchosenacc with hval
          exact hval.symm
        rw [hca, passesFilter_invalid now record.agents a hinv] at hpass
        cases hpass
      refine ⟨hne, ?_⟩
      rw [updateAt_getElem?]
      have hne2 : ¬ (j = chosen.1) := fun hji => hne hji.symm
      rw [if_neg hne2]
      have hpf : passesFilter now record.agents a = false :=
        passesFilter_invalid now record.agents a hinv
      simp [markAgents, hj, hpf]

theorem completionLoop_preserves_invalid (models : List ModelRecord)
    (modelId : String) (times : Nat → Nat) (outcome : Nat → AttemptOutcome)
    (j : Nat) (a : RetoolAccount) (hinv : a.is_valid = false) :
    ∀ (fuel attempt : Nat) (accounts : List RetoolAccount) (ac : Nat)
      (col : List RetoolError) (tr : List Nat),
      accounts[j]? = some a → j ∉ tr →
      (completionLoop models modelId times outcome fuel attempt accounts ac col tr).finalAccounts[j]?
          = some a
        ∧ j ∉ (completionLoop models modelId times outcome fuel attempt accounts ac col tr).tried := by
  intro fuel
  induction fuel with
  | zero =>
    intro attempt accounts ac col tr hj htr
    simp only [completionLoop, CompletionResult.finalAccounts, CompletionResult.tried]
    exact ⟨hj, htr⟩
  | succ fuel ih =>
    intro attempt accounts ac col tr hj htr
    cases hbest : getBestRetoolAccount modelId (times attempt) models accounts with
    | none =>
      simp only [completionLoop, hbest, CompletionResult.finalAccounts,
        CompletionResult.tried]
      exact ⟨hj, htr⟩
    | some pair =>
      obtain ⟨i, accs2⟩ := pair
      obtain ⟨hij, hj2⟩ := getBest_preserves_invalid modelId (times attempt)
        models accounts i accs2 j a hbest hj hinv
      have hnottried : j ∉ tr ++ [i] := by
        intro hc
        rcases List.mem_append.mp hc with hc | hc
        · exact htr hc
        · simp only [List.mem_singleton] at hc
          exact hij hc.symm
      cases houtcome : outcome attempt with
      | ok text =>
        simp only [completionLoop, hbest, houtcome, CompletionResult.finalAccounts,
          CompletionResult.tried]
        exact ⟨hj2, hnottried⟩
      | fail err =>
        simp only [completionLoop, hbest, houtcome]
        apply ih
        · rw [updateAt_getElem?]
          have hne2 : ¬ (j = i) := fun hji => hij hji.symm
          rw [if_neg hne2]
          exact hj2
        · exact hnottried

/-- Claim C5: once an account's `is_valid` is false, no modelled operation
ever sets it back to true — `penalize` keeps it false, the candidate filter
rejects the account at every future time regardless of `error_count` and
`last_used`, and across a whole orchestrated request the account is never
attempted and its state is left untouched. -/
theorem claim_C5 (models : List ModelRecord) (modelId : String)
    (times : Nat → Nat) (outcome : Nat → AttemptOutcome)
    (accounts : List RetoolAccount) (j : Nat) (a : RetoolAccount)
    (hj : accounts[j]? = some a) (hinv : a.is_valid = false) :
    (∀ err, (penalize err a).is_valid = false)
      ∧ (∀ now allowed, passesFilter now allowed a = false)
      ∧ j ∉ (handleCompletion models modelId times outcome accounts).tried
      ∧ (handleCompletion models modelId times outcome accounts).finalAccounts[j]?
          = some a := by
  have hloop := completionLoop_preserves_invalid models modelId times outcome
    j a hinv accounts.length 0 accounts 0 [] [] hj (by simp)
  refine ⟨?_, ?_, hloop.2, hloop.1⟩
  · intro err
    unfold penalize
    by_cases hcode : err.statusCode = some 401 ∨ err.statusCode = some 403 <;>
      simp [hcode, hinv]
  · intro now allowed
    exact passesFilter_invalid now allowed a hinv

/-- Claim C5 witness: in the always-failing two-account run, the invalid
account (index 1) stays excluded even at a time far beyond any quarantine
window, is never attempted, and its state is unchanged. -/
theorem claim_C5_witness :
    passesFilter 999999999 ["ag1"] accountBad = false
      ∧ 1 ∉ (handleCompletion modelsM "m" (fun i => 1000 * (i + 1)) alwaysFail500
          [accountA, accountBad]).tried
      ∧ (handleCompletion modelsM "m" (fun i => 1000 * (i + 1)) alwaysFail500
          [accountA, accountBad]).finalAccounts[1]? = some accountBad :=
  ⟨(claim_C5 modelsM "m" (fun i => 1000 * (i + 1)) alwaysFail500
      [accountA, accountBad] 1 accountBad (by decide) (by decide)).2.1 999999999 ["ag1"],
   (claim_C5 modelsM "m" (fun i => 1000 * (i + 1)) alwaysFail500
      [accountA, accountBad] 1 accountBad (by decide) (by decide)).2.2.1,
   (claim_C5 modelsM "m" (fun i => 1000 * (i + 1)) alwaysFail500
      [accountA, accountBad] 1 accountBad (by decide) (by decide)).2.2.2⟩

theorem insertAgent_cases (ag : AgentInfo) :
    ∀ (recs : List ModelRecord) (r : ModelRecord), r ∈ insertAgent ag recs →
      r ∈ recs ∨ r = newRecord ag
        ∨ ∃ r0 ∈ recs, r = { r0 with agents := r0.agents ++ [ag.id] } := by
  intro recs
  induction recs with
  | nil =>
    intro r hr
    simp only [insertAgent, List.mem_singleton] at hr
    exact Or.inr (Or.inl hr)
  | cons r0 rest ih =>
    intro r hr
    by_cases hid : r0.id = seriesOf (fullNameOf ag)
    · simp only [insertAgent, if_pos hid] at hr
      rcases List.mem_cons.mp hr with rfl | hmem
      · exact Or.inr (Or.inr ⟨r0, List.mem_cons_self _ _, rfl⟩)
      · exact Or.inl (List.mem_cons_of_mem _ hmem)
    · simp only [insertAgent, if_neg hid] at hr
      rcases List.mem_cons.mp hr with rfl | hmem
      · exact Or.inl (List.mem_cons_self _ _)
      · rcases ih r hmem with h | h | ⟨r1, hr1, h⟩
        · exact Or.inl (List.mem_cons_of_mem _ h)
        · exact Or.inr (Or.inl h)
        · exact Or.inr (Or.inr ⟨r1, List.mem_cons_of_mem _ hr1, h⟩)

theorem insertAgent_wf (ag : AgentInfo) (recs : List ModelRecord)
    (hrecs : ∀ r ∈ recs,
      r.id = seriesOf r.model_name ∧ r.owned_by = ownedByOf r.model_name) :
    ∀ r ∈ insertAgent ag recs,
      r.id = seriesOf r.model_name ∧ r.owned_by = ownedByOf r.model_name := by
  intro r hr
  rcases insertAgent_cases ag recs r hr with h | h | ⟨r0, hr0, h⟩
  · exact hrecs r h
  · subst h; exact ⟨rfl, rfl⟩
  · subst h; simpa using hrecs r0 hr0

theorem foldl_insert_wf (ags : List AgentInfo) :
    ∀ recs : List ModelRecord,
      (∀ r ∈ recs, r.id = seriesOf r.model_name ∧ r.owned_by = ownedByOf r.model_name) →
      ∀ r ∈ ags.foldl (fun rs ag => insertAgent ag rs) recs,
        r.id = seriesOf r.model_name ∧ r.owned_by = ownedByOf r.model_name := by
  induction ags with
  | nil => intro recs h r hr; exact h r hr
  | cons ag rest ih =>
    intro recs h r hr
    exact ih (insertAgent ag recs) (insertAgent_wf ag recs h) r hr

theorem foldl_lists_wf (agentLists : List (List AgentInfo)) :
    ∀ recs : List ModelRecord,
      (∀ r ∈ recs, r.id = seriesOf r.model_name ∧ r.owned_by = ownedByOf r.model_name) →
      ∀ r ∈ agentLists.foldl
          (fun recs ags => ags.foldl (fun rs ag => insertAgent ag rs) recs) recs,
        r.id = seriesOf r.model_name ∧ r.owned_by = ownedByOf r.model_name := by
  induction agentLists with
  | nil => intro recs h r hr; exact h r hr
  | cons ags rest ih =>
    intro recs h r hr
    exact ih (ags.foldl (fun rs ag => insertAgent ag rs) recs)
      (foldl_insert_wf ags recs h) r hr

/-- Claim C7: every record produced by catalog discovery has its id equal
to the first-three-hyphen-segments truncation of its full model name and its
ownership tag equal to `"anthropic"` iff that name contains `"claude"`
case-insensitively (else `"openai"`); inserting an agent either leaves a
record untouched, creates a fresh record (whose display name comes from that
first agent), or only appends the agent id to an existing record's agent
set; and the two agents named `anthropic-claude-3-opus-v2` /
`anthropic-claude-3-opus-v3` collapse into the single record
`anthropic-claude-3` holding both agent ids. -/
theorem claim_C7 :
    (∀ (agentLists : List (List AgentInfo)) (r : ModelRecord),
        r ∈ discoverModels agentLists →
          r.id = seriesOf r.model_name ∧ r.owned_by = ownedByOf r.model_name)
      ∧ (∀ full : String, ownedByOf full = "anthropic"
          ↔ containsSub "claude".data (lowerChars full.data) = true)
      ∧ (∀ (ag : AgentInfo) (recs : List ModelRecord) (r : ModelRecord),
          r ∈ insertAgent ag recs →
            r ∈ recs ∨ r = newRecord ag
              ∨ ∃ r0 ∈ recs, r = { r0 with agents := r0.agents ++ [ag.id] })
      ∧ discoverModels [[⟨"a1", "Opus v2", some "anthropic-claude-3-opus-v2"⟩,
            ⟨"a2", "Opus v3", some "anthropic-claude-3-opus-v3"⟩]]
          = [⟨"anthropic-claude-3", "Opus v2", "anthropic-claude-3-opus-v2",
              "anthropic", ["a1", "a2"]⟩] := by
  refine ⟨?_, ?_, ?_, by decide⟩
  · intro agentLists r hr
    exact foldl_lists_wf agentLists [] (by simp) r hr
  · intro full
    unfold ownedByOf
    by_cases h : containsSub "claude".data (lowerChars full.data) = true
    · simp [h]
    · simp only [Bool.not_eq_true] at h
      rw [h]
      simp only [Bool.false_eq_true, if_false]
      constructor
      · intro habs
        exact absurd habs (by decide)
      · intro habs
        cases habs
  · exact insertAgent_cases

/-- Claim C7 witness: the collapsed record's id and ownership agree with the
truncation and ownership rules applied to its full model name. -/
theorem claim_C7_witness :
    (⟨"anthropic-claude-3", "Opus v2", "anthropic-claude-3-opus-v2",
        "anthropic", ["a1", "a2"]⟩ : ModelRecord).id
        = seriesOf "anthropic-claude-3-opus-v2"
      ∧ (⟨"anthropic-claude-3", "Opus v2", "anthropic-claude-3-opus-v2",
          "anthropic", ["a1", "a2"]⟩ : ModelRecord).owned_by
        = ownedByOf "anthropic-claude-3-opus-v2" :=
  claim_C7.1 [[⟨"a1", "Opus v2", some "anthropic-claude-3-opus-v2"⟩,
      ⟨"a2", "Opus v3", some "anthropic-claude-3-opus-v3"⟩]]
    ⟨"anthropic-claude-3", "Opus v2", "anthropic-claude-3-opus-v2",
      "anthropic", ["a1", "a2"]⟩ (by decide)

theorem chunks5_length (s : List Char) :
    (chunks5 s).length = (s.length + 4) / 5 := by
  induction s using chunks5.induct with
  | case1 => simp [chunks5]
  | case2 a => simp [chunks5]
  | case3 a b => simp [chunks5]
  | case4 a b c => simp [chunks5]
  | case5 a b c d => simp [chunks5]
  | case6 a b c d e rest ih =>
    simp only [chunks5, List.length_cons, ih]
    omega

theorem chunks5_flatten (s : List Char) : (chunks5 s).flatten = s := by
  induction s using chunks5.induct with
  | case1 => simp [chunks5]
  | case2 a => simp [chunks5]
  | case3 a b => simp [chunks5]
  | case4 a b c => simp [chunks5]
  | case5 a b c d => simp [chunks5]
  | case6 a b c d e rest ih => simp [chunks5, ih]

theorem chunks5_getElem (s : List Char) :
    ∀ i, i < (chunks5 s).length →
      (chunks5 s)[i]? = some ((s.drop (5 * i)).take 5) := by
  induction s using chunks5.induct with
  | case1 => intro i hi; simp [chunks5] at hi
  | case2 a =>
    intro i hi
    simp only [chunks5, List.length_singleton] at hi
    interval_cases i
    simp [chunks5]
  | case3 a b =>
    intro i hi
    simp only [chunks5, List.length_singleton] at hi
    interval_cases i
    simp [chunks5]
  | case4 a b c =>
    intro i hi
    simp only [chunks5, List.length_singleton] at hi
    interval_cases i
    simp [chunks5]
  | case5 a b c d =>
    intro i hi
    simp only [chunks5, List.length_singleton] at hi
    interval_cases i
    simp [chunks5]
  | case6 a b c d e rest ih =>
    intro i hi
    cases i with
    | zero => simp [chunks5]
    | succ i =>
      simp only [chunks5, List.getElem?_cons_succ]
      rw [ih i (by simpa [chunks5] using hi)]
      have hdrop : (a :: b :: c :: d :: e :: rest).drop (5 * (i + 1))
          = rest.drop (5 * i) := by
        rw [show 5 * (i + 1) = 5 + 5 * i by omega]
        rw [← List.drop_drop]
        rfl
      rw [hdrop]

/-- Claim C6: the streaming generator emits exactly one role frame, then
`ceil(len/5)` content-delta frames carrying the consecutive 5-character
slices of the text in order (their concatenation is the text and the i-th
carries slice `[5i, 5i+5)`), then one stop frame and the `[DONE]` marker;
every frame other than `[DONE]` carries the one stream id and one creation
timestamp fixed at stream start; for "Hello world" the slices are exactly
"Hello", " worl", "d". -/
theorem claim_C6 (streamId : String) (created : Nat) (modelId : String)
    (text : List Char) :
    retoolStreamGenerator streamId created modelId text
        = .role streamId created modelId ::
            ((chunks5 text).map (.content streamId created modelId)
              ++ [.stop streamId created modelId, .done])
      ∧ (chunks5 text).length = (text.length + 4) / 5
      ∧ (chunks5 text).flatten = text
      ∧ (∀ i, i < (chunks5 text).length →
          (chunks5 text)[i]? = some ((text.drop (5 * i)).take 5))
      ∧ (∀ f ∈ retoolStreamGenerator streamId created modelId text,
          f = .done ∨ (f.frameId = some streamId ∧ f.frameCreated = some created))
      ∧ chunks5 "Hello world".data = ["Hello".data, " worl".data, "d".data] := by
  refine ⟨rfl, chunks5_length text, chunks5_flatten text, chunks5_getElem text,
    ?_, by decide⟩
  intro f hf
  simp only [retoolStreamGenerator, List.mem_cons, List.mem_append,
    List.mem_map, List.mem_singleton] at hf
  rcases hf with rfl | ⟨c, hc, rfl⟩ | rfl | rfl | h
  · exact Or.inr ⟨rfl, rfl⟩
  · exact Or.inr ⟨rfl, rfl⟩
  · exact Or.inr ⟨rfl, rfl⟩
  · exact Or.inl rfl
  · exact absurd h (List.not_mem_nil f)

/-- Claim C6 witness: for "Hello world", the second content slice is
characters 5..10 (" worl"), and the role frame carries the stream id and
timestamp. -/
theorem claim_C6_witness :
    (chunks5 "Hello world".data)[1]? = some (("Hello world".data.drop 5).take 5)
      ∧ (StreamFrame.role "id0" 42 "m" = StreamFrame.done
          ∨ ((StreamFrame.role "id0" 42 "m").frameId = some "id0"
              ∧ (StreamFrame.role "id0" 42 "m").frameCreated = some 42)) :=
  ⟨(claim_C6 "id0" 42 "m" "Hello world".data).2.2.2.1 1 (by decide),
   (claim_C6 "id0" 42 "m" "Hello world".data).2.2.2.2.1
     (StreamFrame.role "id0" 42 "m") (by decide)⟩

theorem pollLoop_apiError (domain : String) (deadline : Nat)
    (times : Nat → Nat) (responses : Nat → PollResponse) :
    ∀ (fuel i : Nat) (e : RetoolError),
      pollLoop domain deadline times responses fuel i = .apiError e →
        e.operation = "message_get" ∧ e.account = domain := by
  intro fuel
  induction fuel with
  | zero =>
    intro i e h
    simp only [pollLoop] at h
    cases h
    exact ⟨rfl, rfl⟩
  | succ fuel ih =>
    intro i e h
    simp only [pollLoop] at h
    by_cases ht : times i < deadline
    · rw [if_pos ht] at h
      cases hresp : responses i with
      | httpError s =>
        simp only [hresp] at h
        cases h
        exact ⟨rfl, rfl⟩
      | body st trace =>
        simp only [hresp] at h
        by_cases hst : st = "COMPLETED"
        · rw [if_pos hst] at h
          unfold extractContent at h
          cases hlast : trace.getLast? with
          | some e2 => rw [hlast] at h; cases h
          | none => rw [hlast] at h; cases h
        · rw [if_neg hst] at h
          exact ih (i + 1) e h
    · rw [if_neg ht] at h
      cases h
      exact ⟨rfl, rfl⟩

/-- Claim C9: within the deadline, a non-success poll response fails
immediately with a `message_get` error carrying that status (no retry of the
poll); at or past the deadline the loop fails with the `message_get` timeout
error; a COMPLETED body returns the final trace entry's nested content; a
non-COMPLETED body just advances to the next poll; every structured error
the poll step can produce is a `message_get` error for the polled account;
the default deadline is 300 s and the poll interval 1 s. -/
theorem claim_C9 (domain : String) (deadline : Nat) (times : Nat → Nat)
    (responses : Nat → PollResponse) :
    (∀ fuel i s, times i < deadline → responses i = .httpError s →
        pollLoop domain deadline times responses (fuel + 1) i
          = .apiError (getLogErr domain s))
      ∧ (∀ fuel i, deadline ≤ times i →
          pollLoop domain deadline times responses (fuel + 1) i
            = .apiError (timeoutErr domain))
      ∧ (∀ fuel i trace, times i < deadline →
          responses i = .body "COMPLETED" trace →
            pollLoop domain deadline times responses (fuel + 1) i
                = extractContent trace
              ∧ ∀ e, trace.getLast? = some e →
                  pollLoop domain deadline times responses (fuel + 1) i
                    = .completed e.content)
      ∧ (∀ fuel i st trace, times i < deadline → responses i = .body st trace →
          st ≠ "COMPLETED" →
            pollLoop domain deadline times responses (fuel + 1) i
              = pollLoop domain deadline times responses fuel (i + 1))
      ∧ (∀ fuel i e, pollLoop domain deadline times responses fuel i = .apiError e →
          e.operation = "message_get" ∧ e.account = domain)
      ∧ (∀ start fuel, retoolGetMessage domain start DEFAULT_TIMEOUT_MS times responses fuel
          = pollLoop domain (start + 300000) times responses fuel 0)
      ∧ DEFAULT_TIMEOUT_MS = 300000 ∧ POLL_INTERVAL_MS = 1000 := by
  refine ⟨?_, ?_, ?_, ?_, pollLoop_apiError domain deadline times responses,
    fun start fuel => rfl, rfl, rfl⟩
  · intro fuel i s ht hresp
    simp [pollLoop, if_pos ht, hresp]
  · intro fuel i ht
    have ht2 : ¬ (times i < deadline) := by omega
    simp [pollLoop, if_neg ht2]
  · intro fuel i trace ht hresp
    constructor
    · simp [pollLoop, if_pos ht, hresp]
    · intro e hlast
      simp [pollLoop, if_pos ht, hresp, extractContent, hlast]
  · intro fuel i st trace ht hresp hst
    simp [pollLoop, if_pos ht, hresp, if_neg hst]

/-- Claim C9 witness: concrete polls — an HTTP 500 within the deadline fails
at once with the status-carrying `message_get` error, a clock past the
deadline yields the timeout error, and a COMPLETED body yields the last
trace entry's content. -/
theorem claim_C9_witness :
    pollLoop "d" 1000 (fun _ => 0) (fun _ => .httpError 500) 1 0
        = .apiError (getLogErr "d" 500)
      ∧ pollLoop "d" 1000 (fun _ => 2000) (fun _ => .httpError 500) 1 0
          = .apiError (timeoutErr "d")
      ∧ pollLoop "d" 1000 (fun _ => 0)
          (fun _ => .body "COMPLETED" [⟨"hi"⟩]) 1 0 = .completed "hi" :=
  ⟨(claim_C9 "d" 1000 (fun _ => 0) (fun _ => .httpError 500)).1 0 0 500
      (by decide) rfl,
   (claim_C9 "d" 1000 (fun _ => 2000) (fun _ => .httpError 500)).2.1 0 0
      (by decide),
   ((claim_C9 "d" 1000 (fun _ => 0) (fun _ => .body "COMPLETED" [⟨"hi"⟩])).2.2.1
      0 0 [⟨"hi"⟩] (by decide) rfl).2 ⟨"hi"⟩ rfl⟩

end Retool
